import Mathlib

/-!
Verification of the Sync2Bucket sync-engine frontend and its specified backend.

The TypeScript frontend (types.ts, tauri.ts, store.ts, SyncPanel.tsx,
Progress.tsx, KeyEntry.tsx, page.tsx) is embedded directly from the source.
The Rust backend (crypto.rs, admin.rs, sync_engine.rs) is not part of the
available sources; the definitions it would provide are modelled from the
specification and are marked as such in their doc comments.
-/

namespace SyncToCloud

/-! ## Data model (from src/lib/types.ts) -/

/-- From types.ts: the decrypted license payload.  `created` is a unix
timestamp in seconds, modelled as a natural number. -/
structure KeyPayload where
  uid : String
  name : String
  created : Nat
deriving DecidableEq, Repr

/-- From types.ts: result of the `validate_key` command.  The TypeScript
nullable fields become `Option`s. -/
structure ValidationResult where
  valid : Bool
  user_name : Option String
  error : Option String
deriving DecidableEq, Repr

/-- From types.ts: sync direction. -/
inductive SyncDirection where
  | LocalToCloud
  | CloudToLocal
deriving DecidableEq, Repr

/-- From types.ts: the sync status union, a plain tag or an error-carrying
variant. -/
inductive SyncStatus where
  | Idle
  | Scanning
  | Syncing
  | Paused
  | Completed
  | Error (msg : String)
deriving DecidableEq, Repr

/-- From types.ts: the shared progress snapshot. -/
structure SyncProgress where
  status : SyncStatus
  direction : Option SyncDirection
  total_files : Nat
  completed_files : Nat
  total_bytes : Nat
  transferred_bytes : Nat
  current_file : Option String
  bytes_per_second : Nat
  eta_seconds : Option Nat
deriving DecidableEq, Repr

/-- From types.ts: aggregated view of a top-level cloud folder. -/
structure CloudFolder where
  name : String
  path : String
  total_size : Nat
  file_count : Nat
deriving DecidableEq, Repr

/-- From types.ts: result of the `check_credentials_status` command.
`days_remaining` may be negative, hence an integer. -/
structure CredentialsStatus where
  valid : Bool
  days_remaining : Int
  expiry_date : String
  warning : Option String
deriving DecidableEq, Repr

/-- From types.ts: the three app screens. -/
inductive AppScreen where
  | loading
  | keyEntry
  | main
deriving DecidableEq, Repr

/-- From types.ts: the app-level state held by the zustand store. -/
structure AppState where
  screen : AppScreen
  user : Option KeyPayload
  progress : Option SyncProgress
  cloudFolders : List CloudFolder
  selectedSourceFolders : List String
  selectedTargetFolder : Option String
  selectedCloudFolder : Option String
  error : Option String
deriving DecidableEq, Repr

/-! ## Utility functions (from src/lib/tauri.ts) -/

/-- From tauri.ts `getStatusText`: maps each status to its display string.
The TypeScript `default`/`Unknown` branches are unreachable under the
`SyncStatus` union and so have no counterpart here. -/
def getStatusText : SyncStatus → String
  | .Idle => "Ready"
  | .Scanning => "Scanning files..."
  | .Syncing => "Syncing..."
  | .Paused => "Paused"
  | .Completed => "Completed"
  | .Error m => "Error: " ++ m

/-! ## Store (from src/lib/store.ts) -/

/-- From store.ts: the initial app state. -/
def initialState : AppState :=
  { screen := .loading
    user := none
    progress := none
    cloudFolders := []
    selectedSourceFolders := []
    selectedTargetFolder := none
    selectedCloudFolder := none
    error := none }

/-- The zustand store actions, as an inductive type of state transitions. -/
inductive StoreAction where
  | setScreen (s : AppScreen)
  | setUser (u : Option KeyPayload)
  | setProgress (p : Option SyncProgress)
  | setCloudFolders (f : List CloudFolder)
  | addSourceFolder (p : String)
  | removeSourceFolder (p : String)
  | clearSourceFolders
  | setTargetFolder (p : Option String)
  | setSelectedCloudFolder (p : Option String)
  | setError (e : Option String)
  | reset
deriving DecidableEq, Repr

/-- From store.ts: each action's effect on the state.  `addSourceFolder`
mirrors `includes` / spread-append, `removeSourceFolder` mirrors
`filter((p) => p !== path)`. -/
def applyAction : StoreAction → AppState → AppState
  | .setScreen s, st => { st with screen := s }
  | .setUser u, st => { st with user := u }
  | .setProgress p, st => { st with progress := p }
  | .setCloudFolders f, st => { st with cloudFolders := f }
  | .addSourceFolder p, st =>
      { st with selectedSourceFolders :=
          if st.selectedSourceFolders.contains p then st.selectedSourceFolders
          else st.selectedSourceFolders ++ [p] }
  | .removeSourceFolder p, st =>
      { st with selectedSourceFolders :=
          st.selectedSourceFolders.filter (fun q => q ≠ p) }
  | .clearSourceFolders, st => { st with selectedSourceFolders := [] }
  | .setTargetFolder p, st => { st with selectedTargetFolder := p }
  | .setSelectedCloudFolder p, st => { st with selectedCloudFolder := p }
  | .setError e, st => { st with error := e }
  | .reset, _ => initialState

/-! ## SyncPanel handlers (from src/components/SyncPanel.tsx) -/

/-- JavaScript truthiness of a nullable string: `null` and `""` are falsy. -/
def strTruthy : Option String → Bool
  | none => false
  | some s => !(s == "")

/-- The backend sync commands the panel can invoke. -/
inductive SyncCommand where
  | startUpload (paths : List String)
  | startDownload (cloudFolder : String) (targetPath : String)
deriving DecidableEq, Repr

/-- From SyncPanel.tsx `handleStartUpload`: returns early when no source
folder is selected, otherwise invokes `start_upload` with the selection.
The result is the invoked command, if any. -/
def handleStartUpload (selectedSourceFolders : List String) : Option SyncCommand :=
  if selectedSourceFolders.length == 0 then none
  else some (.startUpload selectedSourceFolders)

/-- From SyncPanel.tsx `handleStartDownload`: returns early unless both the
cloud folder and the target folder are (JS-truthily) selected. -/
def handleStartDownload (selectedCloudFolder selectedTargetFolder : Option String) :
    Option SyncCommand :=
  if !(strTruthy selectedCloudFolder) || !(strTruthy selectedTargetFolder) then none
  else some (.startDownload (selectedCloudFolder.getD "") (selectedTargetFolder.getD ""))

/-- From SyncPanel.tsx: the Start Upload button's `disabled` expression
`selectedSourceFolders.length === 0`. -/
def startUploadDisabled (selectedSourceFolders : List String) : Bool :=
  selectedSourceFolders.length == 0

/-- From SyncPanel.tsx: the Start Download button's `disabled` expression
`!selectedCloudFolder || !selectedTargetFolder`. -/
def startDownloadDisabled (selectedCloudFolder selectedTargetFolder : Option String) : Bool :=
  !(strTruthy selectedCloudFolder) || !(strTruthy selectedTargetFolder)

/-- The SyncPanel component state relevant to progress polling:
the `isSyncing` flag and the local `progress` snapshot. -/
structure PanelState where
  isSyncing : Bool
  progress : Option SyncProgress
deriving DecidableEq, Repr

/-- From SyncPanel.tsx: the polling effect's interval in milliseconds. -/
def pollIntervalMs : Nat := 500

/-- From SyncPanel.tsx: the polling effect's terminal-status test
`p.status === 'Completed' || (typeof p.status === 'object' && 'Error' in p.status)`. -/
def isTerminalStatus : SyncStatus → Bool
  | .Completed => true
  | .Error _ => true
  | _ => false

/-- From SyncPanel.tsx: one tick of the polling interval.  The interval only
exists while `isSyncing`; a tick stores the fetched snapshot and clears
`isSyncing` exactly when the snapshot is terminal.  `fetched = none` models a
`getSyncProgress` rejection, which the catch block swallows. -/
def pollTick (st : PanelState) (fetched : Option SyncProgress) : PanelState :=
  if st.isSyncing then
    match fetched with
    | none => st
    | some p =>
        { isSyncing := if isTerminalStatus p.status then false else st.isSyncing
          progress := some p }
  else st

/-- From SyncPanel.tsx: the effect keeps an interval registered exactly while
`isSyncing` holds (the cleanup clears it whenever the flag flips). -/
def intervalActive (st : PanelState) : Bool := st.isSyncing

/-- From SyncPanel.tsx `handleCancel`: after invoking `cancel_sync`, the
handler stops polling and clears the local snapshot. -/
def handleCancel (_st : PanelState) : PanelState :=
  { isSyncing := false, progress := none }

/-! ## KeyEntry handler (from src/components/KeyEntry.tsx) -/

/-- Whitespace test for `jsTrim` (space, tab, newline, carriage return). -/
def isWs (c : Char) : Bool :=
  c.toNat == 32 || c.toNat == 9 || c.toNat == 10 || c.toNat == 13

/-- JavaScript `String.prototype.trim`: strip leading and trailing
whitespace. -/
def jsTrim (s : String) : String :=
  ⟨((s.data.dropWhile isWs).reverse.dropWhile isWs).reverse⟩

/-- JavaScript `a || b` on a nullable string: `null` and `""` fall through to
the default. -/
def jsOrElse (o : Option String) (dflt : String) : String :=
  match o with
  | none => dflt
  | some s => if s == "" then dflt else s

/-- The observable effects of one run of `KeyEntry.handleSubmit`: the error
message left in the component, the payload passed to `setUser` (if called),
and the screen passed to `setScreen` (if called). -/
structure SubmitEffect where
  error : Option String
  setUserCall : Option KeyPayload
  setScreenCall : Option AppScreen
deriving DecidableEq, Repr

/-- From KeyEntry.tsx `handleSubmit`.  `now` is `Date.now() / 1000` at the
time of the call; `outcome` is the settled `validateKey(key.trim())` promise,
`Except.error m` standing for a rejection with message `m`. -/
def handleSubmit (key : String) (now : Nat) (outcome : Except String ValidationResult) :
    SubmitEffect :=
  if jsTrim key == "" then
    { error := some "Please enter your sync key", setUserCall := none, setScreenCall := none }
  else
    match outcome with
    | .error m => { error := some m, setUserCall := none, setScreenCall := none }
    | .ok result =>
        if result.valid && strTruthy result.user_name then
          { error := none
            setUserCall := some { uid := "", name := result.user_name.getD "", created := now }
            setScreenCall := some .main }
        else
          { error := some (jsOrElse result.error "Invalid key")
            setUserCall := none
            setScreenCall := none }

/-! ## Startup init effect (from src/app/page.tsx) -/

/-- From page.tsx `Home` init effect: the browser fallback goes to key entry;
in Tauri, a stored key plus a non-null `get_user_info` payload stores that
payload and goes to the main screen, anything else goes to key entry.  The
result is the `setUser` argument (if called) and the screen set. -/
def initEffect (tauriEnv : Bool) (hasStoredKey : Bool) (storedUser : Option KeyPayload) :
    Option KeyPayload × AppScreen :=
  if !tauriEnv then (none, .keyEntry)
  else if hasStoredKey then
    match storedUser with
    | some u => (some u, .main)
    | none => (none, .keyEntry)
  else (none, .keyEntry)

/-! ## Admin policy store (modelled from the spec) -/

/-- Result of an authorization query. -/
inductive AuthResult where
  | Allowed
  | Denied (reason : String)
deriving DecidableEq, Repr

/-- Modelled from the spec: `authorize` in admin.rs is not among the available
sources.  Per §4.2: fetch blacklist and whitelist objects (fetch failure is
fail-closed, `Denied "policy unavailable"`); if the uid is blacklisted,
`Denied`; else if the whitelist is empty or contains the uid, `Allowed`;
otherwise `Denied`.  `blacklistFetch` / `whitelistFetch` are the fetched
objects, `none` standing for a failed fetch. -/
def authorize (blacklistFetch whitelistFetch : Option (List String)) (uid : String) :
    AuthResult :=
  match blacklistFetch, whitelistFetch with
  | some blacklist, some whitelist =>
      if blacklist.contains uid then .Denied "blacklisted"
      else if whitelist.isEmpty || whitelist.contains uid then .Allowed
      else .Denied "not whitelisted"
  | _, _ => .Denied "policy unavailable"

/-! ## Credential expiry monitor (modelled from the spec) -/

/-- From the README: credentials expire 2026-11-28.  Unix epoch seconds of
2026-11-28T00:00:00Z. -/
def expiryEpoch : Int := 1795824000

/-- The README's fixed expiry date rendered as an ISO date string. -/
def expiryDateString : String := "2026-11-28"

/-- Modelled from the spec: the warning message for already-expired
credentials (distinct from the not-yet-expired warnings). -/
def expiredMsg : String := "Credentials have expired. Contact your administrator."

/-- Modelled from the spec: the escalating warning for credentials expiring
within a week. -/
def urgentMsg : String := "Credentials expire within a week! Contact your administrator."

/-- Modelled from the spec: the warning for credentials expiring within 30
days. -/
def soonMsg : String := "Credentials expire within 30 days."

/-- Modelled from the spec: `check_expiry` in the Rust backend is not among
the available sources.  Per §4.2: `days_remaining = floor((expiry_date - now)
/ 1 day)` (`Int.fdiv` is floor division); invalid iff `days_remaining < 0`; a
warning is emitted whenever `days_remaining <= 30`, escalating in severity,
with a distinct message once expired.  `now` is unix epoch seconds. -/
def check_expiry (now : Int) : CredentialsStatus :=
  { valid := decide (0 ≤ Int.fdiv (expiryEpoch - now) 86400)
    days_remaining := Int.fdiv (expiryEpoch - now) 86400
    expiry_date := expiryDateString
    warning :=
      if Int.fdiv (expiryEpoch - now) 86400 < 0 then some expiredMsg
      else if Int.fdiv (expiryEpoch - now) 86400 ≤ 7 then some urgentMsg
      else if Int.fdiv (expiryEpoch - now) 86400 ≤ 30 then some soonMsg
      else none }

/-! ## License crypto module (modelled from the spec)

crypto.rs is not among the available sources.  Per spec §4.1: `encrypt`
serializes the payload to canonical JSON, seals it with an AEAD cipher under
the fixed 32-byte master key and a fresh random nonce, concatenates
nonce+ciphertext+tag, encodes to a printable (hex) alphabet and adds the
constant `EXAD-` tag; `decrypt` inverts each step and fails with `InvalidKey`
on any decode, tag, or parse error.  The AEAD seal is modelled as a keystream
xor plus a recomputable authentication tag: what matters for the claims is
the pipeline's structure and invertibility, not the concrete cipher. -/

/-- The double-quote character. -/
def qChar : Char := Char.ofNat 34

/-- The backslash character. -/
def bsChar : Char := Char.ofNat 92

/-- The closing curly bracket character. -/
def rbChar : Char := Char.ofNat 125

/-- JSON string-body escaping: quotes and backslashes get a backslash. -/
def escapeChars : List Char → List Char
  | [] => []
  | c :: cs =>
      if c = qChar ∨ c = bsChar then bsChar :: c :: escapeChars cs
      else c :: escapeChars cs

/-- Parse a JSON string body up to and including the closing quote, undoing
`escapeChars`; returns the body and the unconsumed tail. -/
def parseQuoted : List Char → Option (List Char × List Char)
  | [] => none
  | c :: cs =>
      if c = qChar then some ([], cs)
      else if c = bsChar then
        match cs with
        | [] => none
        | d :: ds =>
            match parseQuoted ds with
            | none => none
            | some (s, r) => some (d :: s, r)
      else
        match parseQuoted cs with
        | none => none
        | some (s, r) => some (c :: s, r)

/-- Decimal digit test on a character. -/
def isDig (c : Char) : Bool := 48 ≤ c.toNat && c.toNat ≤ 57

/-- Value of a decimal digit character. -/
def dVal (c : Char) : Nat := c.toNat - 48

/-- Canonical decimal rendering of a natural number. -/
def natToDec (n : Nat) : List Char :=
  if n = 0 then [Char.ofNat 48] else ((Nat.digits 10 n).map Nat.digitChar).reverse

/-- Split a character list into its maximal leading run of decimal digits and
the remainder. -/
def takeDigits : List Char → List Char × List Char
  | [] => ([], [])
  | c :: cs =>
      if isDig c then
        let r := takeDigits cs
        (c :: r.1, r.2)
      else ([], c :: cs)

/-- Value of a big-endian decimal digit string. -/
def digitsVal (l : List Char) : Nat := l.foldl (fun a c => a * 10 + dVal c) 0

/-- Consume an exact literal off the front of a list, returning the tail. -/
def dropExact (pat l : List Char) : Option (List Char) :=
  match pat, l with
  | [], rest => some rest
  | _ :: _, [] => none
  | p :: ps, c :: cs => if c = p then dropExact ps cs else none

/-- Leading JSON segment up to the opening quote of the uid value. -/
def jsonHead : String := "\x7b\"uid\":\""

/-- JSON segment between the uid value and the opening quote of the name
value. -/
def jsonMid : String := ",\"name\":\""

/-- JSON segment between the name value and the created timestamp. -/
def jsonCreatedKey : String := ",\"created\":"

/-- Canonical JSON serialization of a `KeyPayload`. -/
def serializeKeyPayload (p : KeyPayload) : List Char :=
  jsonHead.data ++ escapeChars p.uid.data ++ [qChar]
    ++ jsonMid.data ++ escapeChars p.name.data ++ [qChar]
    ++ jsonCreatedKey.data ++ natToDec p.created ++ [rbChar]

/-- Parse the canonical JSON form of a `KeyPayload`; `none` on any mismatch
(the `InvalidKey` malformed-JSON case). -/
def parseKeyPayload (l : List Char) : Option KeyPayload :=
  match dropExact jsonHead.data l with
  | none => none
  | some l1 =>
      match parseQuoted l1 with
      | none => none
      | some (uid, l2) =>
          match dropExact jsonMid.data l2 with
          | none => none
          | some l3 =>
              match parseQuoted l3 with
              | none => none
              | some (nm, l4) =>
                  match dropExact jsonCreatedKey.data l4 with
                  | none => none
                  | some l5 =>
                      let r := takeDigits l5
                      if r.1.isEmpty then none
                      else
                        match r.2 with
                        | [c] =>
                            if c = rbChar then some ⟨⟨uid⟩, ⟨nm⟩, digitsVal r.1⟩
                            else none
                        | _ => none

/-- The fixed 32-byte master key (the real value is a deployment secret; only
its length and fixedness matter). -/
def masterKey : List Nat := List.replicate 32 101

/-- One keystream word derived from key, nonce and position; bounded by
`2 ^ 21` so it covers every unicode codepoint. -/
def ksByte (key nonce : List Nat) (i : Nat) : Nat :=
  (key.sum * 131 + nonce.sum * 31 + i * 7919 + 12345) % 2097152

/-- The keystream of a given length. -/
def keystream (key nonce : List Nat) (len : Nat) : List Nat :=
  (List.range len).map (ksByte key nonce)

/-- The 16-byte authentication tag over the ciphertext. -/
def authTag (key nonce ct : List Nat) : List Nat :=
  (List.range 16).map (fun i => (ct.sum * 3 + key.sum + nonce.sum * 7 + i * 13) % 256)

/-- Open the AEAD seal: verify the tag, then undo the keystream xor. -/
def openAEAD (key nonce ct tag : List Nat) : Option (List Nat) :=
  if tag = authTag key nonce ct then
    some (List.zipWith (fun a b => a ^^^ b) ct (keystream key nonce ct.length))
  else none

/-- Map a value below `16 ^ 6` to six hex characters, big-endian. -/
def toHex6 (n : Nat) : List Char :=
  [Nat.digitChar (n / 1048576 % 16), Nat.digitChar (n / 65536 % 16),
   Nat.digitChar (n / 4096 % 16), Nat.digitChar (n / 256 % 16),
   Nat.digitChar (n / 16 % 16), Nat.digitChar (n % 16)]

/-- Value of a hex digit character produced by `Nat.digitChar`. -/
def hexVal (c : Char) : Nat :=
  if 48 ≤ c.toNat ∧ c.toNat ≤ 57 then c.toNat - 48
  else if 97 ≤ c.toNat ∧ c.toNat ≤ 102 then c.toNat - 87
  else 0

/-- Printable encoding of a word sequence: six hex characters per word. -/
def hexEncode : List Nat → List Char
  | [] => []
  | n :: ns => toHex6 n ++ hexEncode ns

/-- Inverse of `hexEncode`; fails when the length is not a multiple of six. -/
def hexDecode : List Char → Option (List Nat)
  | [] => some []
  | a :: b :: c :: d :: e :: f :: rest =>
      match hexDecode rest with
      | none => none
      | some ns =>
          some ((((((hexVal a * 16 + hexVal b) * 16 + hexVal c) * 16 + hexVal d) * 16
            + hexVal e) * 16 + hexVal f) :: ns)
  | _ => none

/-- The constant tag prefixed to every license key string. -/
def keyTag : String := "EXAD-"

/-- Modelled from the spec: `encrypt` from crypto.rs.  The nonce is the
encryption's random choice, passed explicitly (12 bytes). -/
def encrypt (nonce : List Nat) (p : KeyPayload) : String :=
  let pt := (serializeKeyPayload p).map Char.toNat
  let ct := List.zipWith (fun a b => a ^^^ b) pt (keystream masterKey nonce pt.length)
  ⟨keyTag.data ++ hexEncode (nonce ++ ct ++ authTag masterKey nonce ct)⟩

/-- Modelled from the spec: `decrypt` from crypto.rs.  Strips the constant
tag, hex-decodes, splits nonce/ciphertext/tag, opens the seal and parses the
JSON; `none` (the `InvalidKey` failure) at every error point. -/
def decrypt (key : String) : Option KeyPayload :=
  match dropExact keyTag.data key.data with
  | none => none
  | some body =>
      match hexDecode body with
      | none => none
      | some ns =>
          if ns.length < 28 then none
          else
            let nonce := ns.take 12
            let rest := ns.drop 12
            let ct := rest.take (rest.length - 16)
            let tag := rest.drop (rest.length - 16)
            match openAEAD masterKey nonce ct tag with
            | none => none
            | some pt => parseKeyPayload (pt.map Char.ofNat)

/-- Modelled from the spec: the `validate_key` command.  Decrypt the key
(failure is the `InvalidKey` result with error "Invalid key"), then authorize
the decrypted uid against the fetched policy; on success the display name is
returned. -/
def validate_key (blacklistFetch whitelistFetch : Option (List String)) (key : String) :
    ValidationResult :=
  match decrypt key with
  | none => { valid := false, user_name := none, error := some "Invalid key" }
  | some p =>
      match authorize blacklistFetch whitelistFetch p.uid with
      | .Denied reason => { valid := false, user_name := none, error := some reason }
      | .Allowed => { valid := true, user_name := some p.name, error := none }

/-! ## Transfer worker cancel handling (modelled from the spec) -/

/-- Modelled from the spec: the Transfer Worker's reaction to the one-way
cancel signal (sync_engine.rs is not among the available sources).  Per §4.4:
when the worker observes the cancel signal it aborts and the next published
snapshot has status `Idle`; without the signal the snapshot is unchanged. -/
def workerObserveCancel (cancelSignal : Bool) (snapshot : SyncProgress) : SyncProgress :=
  if cancelSignal then { snapshot with status := .Idle } else snapshot

/-! ## Helper lemmas -/

/-- Floor division by a day is nonnegative exactly on nonnegative inputs. -/
theorem fdiv_day_nonneg_iff (a : Int) : 0 ≤ Int.fdiv a 86400 ↔ 0 ≤ a := by
  rw [Int.fdiv_eq_ediv a (by norm_num)]
  constructor
  · intro h
    by_contra hc
    push_neg at hc
    have := Int.ediv_neg' hc (show (0:Int) < 86400 by norm_num)
    omega
  · intro h
    exact Int.ediv_nonneg h (by norm_num)

/-- Lower bound of the floor-division characterization. -/
theorem fdiv_day_mul_le (a : Int) : Int.fdiv a 86400 * 86400 ≤ a := by
  rw [Int.fdiv_eq_ediv a (by norm_num)]
  exact Int.ediv_mul_le a (by norm_num)

/-- Upper bound of the floor-division characterization. -/
theorem lt_fdiv_day_succ_mul (a : Int) : a < (Int.fdiv a 86400 + 1) * 86400 := by
  rw [Int.fdiv_eq_ediv a (by norm_num)]
  exact Int.lt_ediv_add_one_mul_self a (by norm_num)

/-- Consuming a literal off a list that starts with it returns the tail. -/
theorem dropExact_append (pat rest : List Char) :
    dropExact pat (pat ++ rest) = some rest := by
  induction pat with
  | nil => rfl
  | cons c cs ih => simp [dropExact, ih]

/-- Parsing an escaped string body followed by a closing quote recovers the
body and leaves the tail. -/
theorem parseQuoted_escape (s rest : List Char) :
    parseQuoted (escapeChars s ++ (qChar :: rest)) = some (s, rest) := by
  induction s with
  | nil =>
      rw [escapeChars, List.nil_append, parseQuoted.eq_def]
      simp
  | cons c cs ih =>
      by_cases hc : c = qChar ∨ c = bsChar
      · have hbs : ¬ (bsChar = qChar) := by decide
        rw [escapeChars, if_pos hc, List.cons_append, List.cons_append,
          parseQuoted.eq_def]
        simp [hbs, ih]
      · push_neg at hc
        rw [escapeChars, if_neg (by tauto), List.cons_append, parseQuoted.eq_def]
        simp [hc.1, hc.2, ih]

/-- A digit value below ten renders as a decimal digit character. -/
theorem isDig_digitChar (d : Nat) (h : d < 10) : isDig (Nat.digitChar d) = true := by
  interval_cases d <;> decide

/-- `dVal` inverts `Nat.digitChar` on digit values. -/
theorem dVal_digitChar (d : Nat) (h : d < 10) : dVal (Nat.digitChar d) = d := by
  interval_cases d <;> decide

/-- Every character of a decimal rendering is a digit. -/
theorem natToDec_digits (n : Nat) : ∀ c ∈ natToDec n, isDig c = true := by
  intro c hc
  by_cases h : n = 0
  · subst h
    simp [natToDec] at hc
    subst hc
    decide
  · simp [natToDec, h] at hc
    obtain ⟨d, hd, rfl⟩ := hc
    exact isDig_digitChar d (Nat.digits_lt_base (by norm_num) hd)

/-- A decimal rendering is never empty. -/
theorem natToDec_ne_nil (n : Nat) : natToDec n ≠ [] := by
  by_cases h : n = 0
  · subst h
    simp [natToDec]
  · simp [natToDec, h, Nat.digits_ne_nil_iff_ne_zero]

/-- `takeDigits` consumes exactly a leading digit run ended by a non-digit. -/
theorem takeDigits_append (a : List Char) (b : Char) (r : List Char)
    (ha : ∀ c ∈ a, isDig c = true) (hb : isDig b = false) :
    takeDigits (a ++ b :: r) = (a, b :: r) := by
  induction a with
  | nil => simp [takeDigits, hb]
  | cons c cs ih =>
      have hc : isDig c = true := ha c (by simp)
      have ih' := ih (fun x hx => ha x (by simp [hx]))
      simp [takeDigits, hc, ih']

/-- Horner evaluation of a big-endian digit list equals `Nat.ofDigits` of its
little-endian reversal, shifted by the accumulator. -/
theorem foldl_digits (L : List Nat) (acc : Nat) (h : ∀ d ∈ L, d < 10) :
    (L.map Nat.digitChar).foldl (fun a c => a * 10 + dVal c) acc =
      Nat.ofDigits 10 L.reverse + acc * 10 ^ L.length := by
  induction L generalizing acc with
  | nil => simp
  | cons d L ih =>
      have hd : d < 10 := h d (by simp)
      have ih' := ih (acc * 10 + d) (fun x hx => h x (by simp [hx]))
      simp only [List.map_cons, List.foldl_cons, dVal_digitChar d hd, ih',
        List.reverse_cons, List.length_cons]
      rw [Nat.ofDigits_append]
      simp [Nat.ofDigits]
      ring

/-- Parsing back a decimal rendering recovers the value. -/
theorem digitsVal_natToDec (n : Nat) : digitsVal (natToDec n) = n := by
  by_cases h : n = 0
  · subst h
    decide
  · have hlt : ∀ d ∈ (Nat.digits 10 n).reverse, d < 10 := by
      intro d hd
      exact Nat.digits_lt_base (by norm_num) (List.mem_reverse.mp hd)
    have := foldl_digits ((Nat.digits 10 n).reverse) 0 hlt
    simp only [List.reverse_reverse, Nat.ofDigits_digits, Nat.zero_mul,
      Nat.add_zero] at this
    simpa [digitsVal, natToDec, h, List.map_reverse] using this

/-- `hexVal` inverts `Nat.digitChar` on hex digit values. -/
theorem hexVal_digitChar (d : Nat) (h : d < 16) : hexVal (Nat.digitChar d) = d := by
  interval_cases d <;> decide

/-- Hex-decoding a hex encoding of in-range words recovers them. -/
theorem hexDecode_hexEncode (ns : List Nat) (h : ∀ n ∈ ns, n < 16777216) :
    hexDecode (hexEncode ns) = some ns := by
  induction ns with
  | nil => rfl
  | cons n ns ih =>
      have hn : n < 16777216 := h n (by simp)
      have hrest := ih (fun m hm => h m (by simp [hm]))
      rw [hexEncode]
      simp only [toHex6, List.cons_append, List.nil_append]
      rw [hexDecode, hrest]
      rw [hexVal_digitChar _ (Nat.mod_lt _ (by norm_num)),
        hexVal_digitChar _ (Nat.mod_lt _ (by norm_num)),
        hexVal_digitChar _ (Nat.mod_lt _ (by norm_num)),
        hexVal_digitChar _ (Nat.mod_lt _ (by norm_num)),
        hexVal_digitChar _ (Nat.mod_lt _ (by norm_num)),
        hexVal_digitChar _ (Nat.mod_lt _ (by norm_num))]
      have : (((((n / 1048576 % 16 * 16 + n / 65536 % 16) * 16 + n / 4096 % 16) * 16
          + n / 256 % 16) * 16 + n / 16 % 16) * 16 + n % 16) = n := by omega
      rw [this]

/-- Xoring twice with the same keystream gives back the plaintext. -/
theorem zipWith_xor_cancel (a b : List Nat) (h : a.length ≤ b.length) :
    List.zipWith (fun x y => x ^^^ y) (List.zipWith (fun x y => x ^^^ y) a b) b = a := by
  induction a generalizing b with
  | nil => simp
  | cons x xs ih =>
      cases b with
      | nil => simp at h
      | cons y ys =>
          simp only [List.zipWith_cons_cons]
          rw [ih ys (by simpa using h)]
          rw [Nat.xor_cancel_right]

/-- The keystream has the requested length. -/
theorem keystream_length (key nonce : List Nat) (len : Nat) :
    (keystream key nonce len).length = len := by
  simp [keystream]

/-- The authentication tag is sixteen words long. -/
theorem authTag_length (key nonce ct : List Nat) : (authTag key nonce ct).length = 16 := by
  simp [authTag]

/-- Every unicode codepoint is below `2 ^ 21`. -/
theorem char_toNat_lt (c : Char) : c.toNat < 2097152 := by
  rcases c.valid with h | ⟨h1, h2⟩
  · exact lt_trans h (by norm_num)
  · exact lt_trans h2 (by norm_num)

/-- Keystream words stay below `2 ^ 21`. -/
theorem ksByte_lt (key nonce : List Nat) (i : Nat) : ksByte key nonce i < 2097152 :=
  Nat.mod_lt _ (by norm_num)

/-- Ciphertext words (xors of codepoints with keystream words) fit the hex
encoding range. -/
theorem ct_entry_lt (pt ks : List Nat) (hpt : ∀ x ∈ pt, x < 2097152)
    (hks : ∀ x ∈ ks, x < 2097152) :
    ∀ y ∈ List.zipWith (fun a b => a ^^^ b) pt ks, y < 16777216 := by
  induction pt generalizing ks with
  | nil => simp
  | cons x xs ih =>
      cases ks with
      | nil => simp
      | cons k kt =>
          intro y hy
          simp only [List.zipWith_cons_cons, List.mem_cons] at hy
          rcases hy with rfl | hy
          · have hx : x < 2 ^ 21 := by
              simpa using hpt x (by simp)
            have hk : k < 2 ^ 21 := by
              simpa using hks k (by simp)
            calc x ^^^ k < 2 ^ 21 := Nat.xor_lt_two_pow hx hk
              _ < 16777216 := by norm_num
          · exact ih kt (fun z hz => hpt z (by simp [hz]))
              (fun z hz => hks z (by simp [hz])) y hy

/-- Parsing the canonical JSON serialization recovers the payload. -/
theorem parseKeyPayload_serializeKeyPayload (p : KeyPayload) :
    parseKeyPayload (serializeKeyPayload p) = some p := by
  have hs : serializeKeyPayload p =
      jsonHead.data ++ (escapeChars p.uid.data ++ (qChar ::
        (jsonMid.data ++ (escapeChars p.name.data ++ (qChar ::
          (jsonCreatedKey.data ++ (natToDec p.created ++ (rbChar :: [])))))))) := by
    simp [serializeKeyPayload, List.append_assoc]
  have ht := takeDigits_append (natToDec p.created) rbChar []
    (natToDec_digits p.created) (by decide)
  rw [hs, parseKeyPayload]
  simp only [dropExact_append, parseQuoted_escape, ht]
  have hne : (natToDec p.created).isEmpty = false := by
    cases hd : natToDec p.created with
    | nil => exact absurd hd (natToDec_ne_nil _)
    | cons a l => rfl
  simp [hne, digitsVal_natToDec]

/-- Decrypting a well-formed key built over any in-range plaintext inverts
the sealing pipeline down to the JSON parse. -/
theorem decrypt_pipeline (nonce pt : List Nat)
    (hlen : nonce.length = 12) (hnb : ∀ b ∈ nonce, b < 256)
    (hpt : ∀ x ∈ pt, x < 2097152) :
    decrypt ⟨keyTag.data ++ hexEncode (nonce ++
        List.zipWith (fun a b => a ^^^ b) pt (keystream masterKey nonce pt.length) ++
        authTag masterKey nonce
          (List.zipWith (fun a b => a ^^^ b) pt (keystream masterKey nonce pt.length)))⟩ =
      parseKeyPayload (pt.map Char.ofNat) := by
  set ks := keystream masterKey nonce pt.length with hks_def
  set ct := List.zipWith (fun a b => a ^^^ b) pt ks with hct_def
  set tag := authTag masterKey nonce ct with htag_def
  have hks_lt : ∀ x ∈ ks, x < 2097152 := by
    rw [hks_def]
    intro x hx
    simp only [keystream, List.mem_map] at hx
    obtain ⟨i, _, rfl⟩ := hx
    exact ksByte_lt _ _ _
  have hct_lt : ∀ y ∈ ct, y < 16777216 := by
    rw [hct_def]
    exact ct_entry_lt pt ks hpt hks_lt
  have hall : ∀ n ∈ nonce ++ ct ++ tag, n < 16777216 := by
    intro n hn
    rcases List.mem_append.mp hn with hn1 | hn2
    · rcases List.mem_append.mp hn1 with hn3 | hn4
      · exact lt_trans (hnb n hn3) (by norm_num)
      · exact hct_lt n hn4
    · rw [htag_def] at hn2
      simp only [authTag, List.mem_map] at hn2
      obtain ⟨i, _, rfl⟩ := hn2
      exact lt_trans (Nat.mod_lt _ (by norm_num)) (by norm_num)
  have hhex := hexDecode_hexEncode _ hall
  have hctlen : ct.length = pt.length := by
    rw [hct_def, hks_def]
    simp [keystream_length]
  have htaglen : tag.length = 16 := by
    rw [htag_def]
    exact authTag_length _ _ _
  have hnotlt : ¬ (nonce ++ ct ++ tag).length < 28 := by
    simp [hlen, htaglen]
    omega
  have htake12 : (nonce ++ ct ++ tag).take 12 = nonce := by
    rw [List.append_assoc, ← hlen]
    exact List.take_left _ _
  have hdrop12 : (nonce ++ ct ++ tag).drop 12 = ct ++ tag := by
    rw [List.append_assoc, ← hlen]
    exact List.drop_left _ _
  have hsub : (ct ++ tag).length - 16 = ct.length := by
    simp [htaglen]
  have htakeCt : (ct ++ tag).take ((ct ++ tag).length - 16) = ct := by
    rw [hsub]
    exact List.take_left _ _
  have hdropTag : (ct ++ tag).drop ((ct ++ tag).length - 16) = tag := by
    rw [hsub]
    exact List.drop_left _ _
  have hopen : openAEAD masterKey nonce ct tag = some pt := by
    rw [openAEAD, if_pos htag_def, hctlen, ← hks_def, hct_def,
      zipWith_xor_cancel pt ks (by rw [hks_def, keystream_length])]
  have hstrip : dropExact keyTag.data
      ({ data := keyTag.data ++ hexEncode (nonce ++ ct ++ tag) } : String).data =
      some (hexEncode (nonce ++ ct ++ tag)) :=
    dropExact_append _ _
  rw [decrypt, hstrip]
  simp only [hhex, if_neg hnotlt, htake12, hdrop12, htakeCt, hdropTag, hopen]

/-! ## Claim theorems -/

/-- C1: authorize is fail-closed on fetch failure, denies every blacklisted
uid regardless of whitelist membership, allows any uid when the whitelist is
empty or contains it, and denies otherwise. -/
theorem authorize_spec :
    (∀ (wl : Option (List String)) (uid : String),
      authorize none wl uid = .Denied "policy unavailable") ∧
    (∀ (bl : Option (List String)) (uid : String),
      authorize bl none uid = .Denied "policy unavailable") ∧
    (∀ (bl wl : List String) (uid : String), uid ∈ bl →
      ∃ r, authorize (some bl) (some wl) uid = .Denied r) ∧
    (∀ (bl wl : List String) (uid : String), uid ∉ bl → (wl = [] ∨ uid ∈ wl) →
      authorize (some bl) (some wl) uid = .Allowed) ∧
    (∀ (bl wl : List String) (uid : String), uid ∉ bl → wl ≠ [] → uid ∉ wl →
      ∃ r, authorize (some bl) (some wl) uid = .Denied r) := by
  refine ⟨?_, ?_, ?_, ?_, ?_⟩
  · intro wl uid
    cases wl <;> rfl
  · intro bl uid
    cases bl <;> rfl
  · intro bl wl uid h
    exact ⟨"blacklisted", by simp [authorize, h]⟩
  · intro bl wl uid hb hw
    rcases hw with rfl | hw
    · simp [authorize, hb]
    · simp [authorize, hb, hw]
  · intro bl wl uid hb hne hw
    refine ⟨"not whitelisted", ?_⟩
    simp [authorize, hb, hne, hw]

/-- Witness for C1: a non-blacklisted uid with an empty whitelist is
allowed. -/
theorem authorize_spec_witness :
    authorize (some ["b"]) (some []) "u" = .Allowed :=
  authorize_spec.2.2.2.1 ["b"] [] "u" (by decide) (Or.inl rfl)

/-- C2: for every payload and every choice of 12-byte random nonce, decrypt
inverts encrypt under the fixed 32-byte master key. -/
theorem decrypt_encrypt (p : KeyPayload) (nonce : List Nat)
    (hlen : nonce.length = 12) (hnb : ∀ b ∈ nonce, b < 256) :
    decrypt (encrypt nonce p) = some p := by
  have hpt : ∀ x ∈ (serializeKeyPayload p).map Char.toNat, x < 2097152 := by
    intro x hx
    simp only [List.mem_map] at hx
    obtain ⟨c, _, rfl⟩ := hx
    exact char_toNat_lt c
  have h : decrypt (encrypt nonce p) =
      parseKeyPayload (((serializeKeyPayload p).map Char.toNat).map Char.ofNat) :=
    decrypt_pipeline nonce ((serializeKeyPayload p).map Char.toNat) hlen hnb hpt
  rw [h, List.map_map]
  have hcomp : (Char.ofNat ∘ Char.toNat) = id := funext Char.ofNat_toNat
  rw [hcomp, List.map_id]
  exact parseKeyPayload_serializeKeyPayload p

/-- Witness for C2: a concrete payload and nonce round-trip. -/
theorem decrypt_encrypt_witness :
    decrypt (encrypt (List.replicate 12 5) ⟨"u1", "Bob", 3⟩) = some ⟨"u1", "Bob", 3⟩ :=
  decrypt_encrypt ⟨"u1", "Bob", 3⟩ (List.replicate 12 5) (by decide)
    (by
      intro b hb
      simp at hb
      omega)

/-- C3: the backend rejects a garbage key with the `Invalid key` error value
rather than an exception, and the key-entry handler moves to the main screen
and stores a user only for a valid result with a truthy user name, surfacing
an inline error whenever it stays. -/
theorem invalid_key_spec :
    (∀ bl wl : Option (List String), validate_key bl wl "garbage" =
      { valid := false, user_name := none, error := some "Invalid key" }) ∧
    (∀ (key : String) (now : Nat) (outcome : Except String ValidationResult),
      ((handleSubmit key now outcome).setScreenCall = some .main ∨
        (handleSubmit key now outcome).setUserCall ≠ none) →
      ∃ r, outcome = .ok r ∧ r.valid = true ∧ strTruthy r.user_name = true) ∧
    (∀ (key : String) (now : Nat) (outcome : Except String ValidationResult),
      (handleSubmit key now outcome).setScreenCall = none →
      (handleSubmit key now outcome).error ≠ none) := by
  have hd : decrypt "garbage" = none := by decide
  refine ⟨?_, ?_, ?_⟩
  · intro bl wl
    simp [validate_key, hd]
  · intro key now outcome h
    by_cases hk : (jsTrim key == "") = true
    · simp [handleSubmit, hk] at h
    · cases outcome with
      | error m => simp [handleSubmit, hk] at h
      | ok r =>
          by_cases hc : (r.valid && strTruthy r.user_name) = true
          · exact ⟨r, rfl, by simpa using hc⟩
          · simp [handleSubmit, hk, hc] at h
  · intro key now outcome h
    by_cases hk : (jsTrim key == "") = true
    · simp [handleSubmit, hk]
    · cases outcome with
      | error m => simp [handleSubmit, hk]
      | ok r =>
          by_cases hc : (r.valid && strTruthy r.user_name) = true
          · simp [handleSubmit, hk, hc] at h
          · simp [handleSubmit, hk, hc]

/-- Witness for C3: a rejected validation leaves a non-null inline error. -/
theorem invalid_key_spec_witness :
    (handleSubmit "k" 0 (.error "boom")).error ≠ none :=
  invalid_key_spec.2.2 "k" 0 (.error "boom") (by decide)

/-- C4: check_expiry computes `days_remaining` as the floor of
`(expiry - now) / 1 day`, is invalid exactly when that is negative, warns
whenever at most 30 days remain with a distinct message once expired, and
its validity flips from true to false exactly once as `now` passes the
expiry date. -/
theorem check_expiry_spec :
    (∀ now : Int, (check_expiry now).days_remaining = Int.fdiv (expiryEpoch - now) 86400) ∧
    (∀ now : Int, (check_expiry now).days_remaining * 86400 ≤ expiryEpoch - now ∧
      expiryEpoch - now < ((check_expiry now).days_remaining + 1) * 86400) ∧
    (∀ now : Int, (check_expiry now).valid = false ↔ (check_expiry now).days_remaining < 0) ∧
    (∀ now : Int, (check_expiry now).days_remaining ≤ 30 → (check_expiry now).warning ≠ none) ∧
    (∀ now : Int, (check_expiry now).days_remaining < 0 →
      (check_expiry now).warning = some expiredMsg) ∧
    (expiredMsg ≠ urgentMsg ∧ expiredMsg ≠ soonMsg) ∧
    (∀ n1 n2 : Int, n1 ≤ n2 → (check_expiry n2).valid = true →
      (check_expiry n1).valid = true) ∧
    (check_expiry expiryEpoch).valid = true ∧
    (check_expiry (expiryEpoch + 86400)).valid = false := by
  refine ⟨fun now => rfl, ?_, ?_, ?_, ?_, ⟨by decide, by decide⟩, ?_, ?_, ?_⟩
  · intro now
    exact ⟨fdiv_day_mul_le _, lt_fdiv_day_succ_mul _⟩
  · intro now
    simp only [check_expiry, decide_eq_false_iff_not, Int.not_le]
  · intro now h
    simp only [check_expiry] at h ⊢
    split_ifs <;> simp_all
  · intro now h
    simp only [check_expiry] at h ⊢
    rw [if_pos h]
  · intro n1 n2 h12 h2
    simp only [check_expiry, decide_eq_true_eq] at h2 ⊢
    have h2' : (0:Int) ≤ expiryEpoch - n2 := (fdiv_day_nonneg_iff _).mp h2
    exact (fdiv_day_nonneg_iff _).mpr (by omega)
  · simp only [check_expiry, decide_eq_true_eq, Int.sub_self, Int.zero_fdiv]
    omega
  · simp only [check_expiry, decide_eq_false_iff_not]
    rw [show expiryEpoch - (expiryEpoch + 86400) = -86400 by ring]
    intro hcontra
    have := (fdiv_day_nonneg_iff (-86400)).mp hcontra
    omega

/-- Witness for C4: ten days before expiry the status is valid, within the
warning window, and carries a warning. -/
theorem check_expiry_spec_witness :
    (check_expiry (expiryEpoch - 864000)).days_remaining ≤ 30 ∧
    (check_expiry (expiryEpoch - 864000)).warning ≠ none :=
  ⟨by decide, check_expiry_spec.2.2.2.1 (expiryEpoch - 864000) (by decide)⟩

/-- C5: the UI polls on a fixed 500 ms interval; each polled snapshot is
stored; a tick ends the sync exactly when the snapshot's status is terminal
(Completed or the error-carrying variant), and the interval is kept
registered exactly while the sync runs. -/
theorem poll_spec :
    pollIntervalMs = 500 ∧
    (∀ s : SyncStatus, isTerminalStatus s = true ↔
      (s = .Completed ∨ ∃ m, s = .Error m)) ∧
    (∀ (st : PanelState) (p : SyncProgress), st.isSyncing = true →
      (pollTick st (some p)).progress = some p ∧
      ((pollTick st (some p)).isSyncing = false ↔ isTerminalStatus p.status = true) ∧
      intervalActive (pollTick st (some p)) = !(isTerminalStatus p.status)) := by
  refine ⟨rfl, ?_, ?_⟩
  · intro s
    cases s <;> simp [isTerminalStatus]
  · intro st p h
    cases ht : isTerminalStatus p.status <;>
      simp [pollTick, intervalActive, h, ht]

/-- Witness for C5: polling a Completed snapshot stores it and stops the
sync. -/
theorem poll_spec_witness :
    (pollTick ⟨true, none⟩
        (some ⟨.Completed, none, 3, 3, 300, 300, none, 0, none⟩)).isSyncing = false :=
  ((poll_spec.2.2 ⟨true, none⟩ ⟨.Completed, none, 3, 3, 300, 300, none, 0, none⟩
    rfl).2.1).mpr rfl

/-- C6: once the worker observes the cancel signal the next snapshot has
status Idle, and the UI cancel handler stops polling (clearing its interval)
and drops the local snapshot. -/
theorem cancel_spec :
    (∀ snapshot : SyncProgress, (workerObserveCancel true snapshot).status = .Idle) ∧
    (∀ st : PanelState,
      (handleCancel st).isSyncing = false ∧ (handleCancel st).progress = none ∧
      intervalActive (handleCancel st) = false) :=
  ⟨fun _ => rfl, fun _ => ⟨rfl, rfl, rfl⟩⟩

/-- C7: getStatusText maps each plain status tag to its fixed display string
and renders the error variant as `Error: ` followed verbatim by the
message. -/
theorem getStatusText_spec :
    getStatusText .Idle = "Ready" ∧
    getStatusText .Scanning = "Scanning files..." ∧
    getStatusText .Syncing = "Syncing..." ∧
    getStatusText .Paused = "Paused" ∧
    getStatusText .Completed = "Completed" ∧
    (∀ m : String, getStatusText (.Error m) = "Error: " ++ m) :=
  ⟨rfl, rfl, rfl, rfl, rfl, fun _ => rfl⟩

/-- C8: the selected-source-folders list starts empty, addSourceFolder is
idempotent on present paths and appends otherwise, removeSourceFolder
removes every occurrence, and every store action preserves the
no-duplicates invariant. -/
theorem store_sourceFolders_spec :
    initialState.selectedSourceFolders = [] ∧
    (∀ (st : AppState) (p : String), p ∈ st.selectedSourceFolders →
      applyAction (.addSourceFolder p) st = st) ∧
    (∀ (st : AppState) (p : String), p ∉ st.selectedSourceFolders →
      (applyAction (.addSourceFolder p) st).selectedSourceFolders =
        st.selectedSourceFolders ++ [p]) ∧
    (∀ (st : AppState) (p q : String),
      q ∈ (applyAction (.removeSourceFolder p) st).selectedSourceFolders ↔
        (q ∈ st.selectedSourceFolders ∧ q ≠ p)) ∧
    (∀ (a : StoreAction) (st : AppState), st.selectedSourceFolders.Nodup →
      (applyAction a st).selectedSourceFolders.Nodup) := by
  refine ⟨rfl, ?_, ?_, ?_, ?_⟩
  · intro st p hp
    simp [applyAction, hp]
  · intro st p hp
    simp [applyAction, hp]
  · intro st p q
    simp [applyAction, List.mem_filter]
  · intro a st h
    cases a with
    | addSourceFolder p =>
        by_cases hp : p ∈ st.selectedSourceFolders
        · simpa [applyAction, hp] using h
        · simp [applyAction, hp, List.nodup_append, h]
    | removeSourceFolder p =>
        simpa [applyAction] using h.filter _
    | clearSourceFolders => simp [applyAction]
    | reset => simp [applyAction, initialState]
    | setScreen s => simpa [applyAction] using h
    | setUser u => simpa [applyAction] using h
    | setProgress p => simpa [applyAction] using h
    | setCloudFolders f => simpa [applyAction] using h
    | setTargetFolder p => simpa [applyAction] using h
    | setSelectedCloudFolder p => simpa [applyAction] using h
    | setError e => simpa [applyAction] using h

/-- Witness for C8: adding a present path leaves the state unchanged, and
adding a new path appends it. -/
theorem store_sourceFolders_spec_witness :
    (applyAction (.addSourceFolder "a")
        { initialState with selectedSourceFolders := ["a"] }) =
      { initialState with selectedSourceFolders := ["a"] } ∧
    (applyAction (.addSourceFolder "b")
        { initialState with selectedSourceFolders := ["a"] }).selectedSourceFolders =
      ["a", "b"] :=
  ⟨store_sourceFolders_spec.2.1 _ "a" (by decide),
   store_sourceFolders_spec.2.2.1 _ "b" (by decide)⟩

/-- C9: start_upload is only invoked with a non-empty folder list (and the
button is disabled exactly when the list is empty), and start_download is
only invoked when both a cloud folder and a target folder are selected. -/
theorem start_guards_spec :
    handleStartUpload [] = none ∧
    (∀ (l : List String) (c : SyncCommand), handleStartUpload l = some c →
      l ≠ [] ∧ c = .startUpload l) ∧
    (∀ l : List String, startUploadDisabled l = true ↔ l = []) ∧
    (∀ (cf tf : Option String) (c : SyncCommand), handleStartDownload cf tf = some c →
      ∃ cs ts, cf = some cs ∧ tf = some ts ∧ c = .startDownload cs ts) ∧
    (∀ cf tf : Option String, startDownloadDisabled cf tf = false →
      strTruthy cf = true ∧ strTruthy tf = true) := by
  refine ⟨rfl, ?_, ?_, ?_, ?_⟩
  · intro l c h
    by_cases hl : l = []
    · subst hl
      simp [handleStartUpload] at h
    · have hlen : (l.length == 0) = false := by
        simp [List.length_eq_zero, hl]
      simp [handleStartUpload, hlen] at h
      exact ⟨hl, h.symm⟩
  · intro l
    simp [startUploadDisabled, List.length_eq_zero]
  · intro cf tf c h
    cases cf with
    | none => simp [handleStartDownload, strTruthy] at h
    | some cs =>
        cases tf with
        | none => simp [handleStartDownload, strTruthy] at h
        | some ts =>
            by_cases hcs : cs = ""
            · subst hcs
              simp [handleStartDownload, strTruthy] at h
            · by_cases hts : ts = ""
              · subst hts
                simp [handleStartDownload, strTruthy] at h
              · refine ⟨cs, ts, rfl, rfl, ?_⟩
                simp [handleStartDownload, strTruthy, hcs, hts] at h
                exact h.symm
  · intro cf tf h
    simpa [startDownloadDisabled] using h

/-- Witness for C9: a singleton selection yields an invocation with exactly
that non-empty list. -/
theorem start_guards_spec_witness :
    (["a"] : List String) ≠ [] ∧
    SyncCommand.startUpload ["a"] = .startUpload ["a"] :=
  start_guards_spec.2.1 ["a"] (.startUpload ["a"]) rfl

/-- C10: after a successful validation the stored user has an empty uid and
the current wall-clock time as `created`, with only the name taken from the
result; the real payload is stored only by the startup init effect via
get_user_info. -/
theorem post_validate_user_spec :
    (∀ (key : String) (now : Nat) (r : ValidationResult) (uname : String),
      jsTrim key ≠ "" → r.valid = true → r.user_name = some uname → uname ≠ "" →
      (handleSubmit key now (.ok r)).setUserCall =
        some { uid := "", name := uname, created := now }) ∧
    (∀ u : KeyPayload, initEffect true true (some u) = (some u, .main)) := by
  constructor
  · intro key now r uname hk hv hu hne
    have h1 : (jsTrim key == "") = false := by simp [hk]
    simp [handleSubmit, h1, hv, hu, strTruthy, hne]
  · intro u
    rfl

/-- Witness for C10: a concrete successful validation stores the placeholder
user with empty uid and the call-time clock value. -/
theorem post_validate_user_spec_witness :
    (handleSubmit "EXAD-k" 1700000000 (.ok ⟨true, some "Alice", none⟩)).setUserCall =
      some { uid := "", name := "Alice", created := 1700000000 } :=
  post_validate_user_spec.1 "EXAD-k" 1700000000 ⟨true, some "Alice", none⟩ "Alice"
    (by decide) rfl rfl (by decide)

end SyncToCloud
